import Mathlib

/-!
Verification of the GELF UDP reader (`gelf/reader.go`).

The development shallowly embeds the two interesting parts of the source:

* the JSON-object-to-`Message` field mapper of `ReadMessage`
  (reader.go lines 70-162), and
* the datagram reassembly loop, slice handling and compression detection
  of `readToMap` (reader.go lines 164-238).

Bytes are modelled as `Nat` (inputs of interest are byte lists), Go byte
slices into the receive buffer are modelled as explicit (offset, length)
views into a persistent backing array — this is essential, because the
source stores the slice `ocid = cid` (a view into `cBuf`) rather than a
copy, and later reads through that view observe the bytes of the most
recent datagram.  Dynamically typed JSON values (`interface` values
produced by `encoding/json`) are modelled by `JValue`; JSON numbers are
`Rat` (the source's `float64`); a failed Go type assertion (a panic) is
modelled as `none` / an error value.  The external collaborators
(`strconv.ParseFloat`, `gzip`/`zlib` decompression, `encoding/json`) are
parameters of the embedding.
-/

/-- Modelled from the spec: the fixed maximum chunk size constant (defined in a
file of the repository that is not under `src/`); the spec only requires a
fixed bound, the upstream GELF value 1420 is used.  No claim depends on the
exact value beyond it being at least 14. -/
def ChunkSize : Nat := 1420

/-- Modelled from the spec: the 2-byte chunked-datagram magic marker
(defined outside `src/`); the standard GELF value `0x1e 0x0f` is used. -/
def magicChunked : List Nat := [0x1e, 0x0f]

/-- The gzip magic given explicitly by the spec: `0x1f 0x8b`. -/
def magicGzip : List Nat := [0x1f, 0x8b]

/-- Modelled from the spec: the first byte of the zlib magic (`magicZlib[0]`,
defined outside `src/`): the standard zlib deflate method byte `0x78`. -/
def magicZlibByte : Nat := 0x78

/-- Chunked-datagram header length: 2-byte magic, 8-byte id, 1-byte sequence
index, 1-byte total count (spec wire format, `chunkedHeaderLen`). -/
def chunkedHeaderLen : Nat := 12

/-- A decoded JSON value as produced by `encoding/json` into `interface`:
null, bool, number (`float64`, modelled as `Rat`), string, array, object. -/
inductive JValue where
  | null
  | bool (b : Bool)
  | num (q : Rat)
  | str (s : String)
  | arr (elems : List JValue)
  | obj (fields : List (String × JValue))

/-- Whether a decoded JSON value is JSON null (Go: the interface value is nil). -/
def JValue.isNull : JValue → Bool
  | .null => true
  | _ => false

/-- The decoded structured log entry (`Message`).  Field defaults are the Go
zero values.  `Level`/`Line` are `int32` in the source; the `int32` wrap-around
of an out-of-range `float64` conversion is implementation-defined in Go and no
claim depends on it, so the truncated value is kept as `Int`. -/
structure Message where
  Version : String := ""
  Host : String := ""
  Short : String := ""
  Full : String := ""
  TimeUnix : Rat := 0
  Level : Int := 0
  Facility : String := ""
  File : String := ""
  Line : Int := 0
  Extra : List (String × JValue) := []

/-- Go conversion `int32(f)` of a `float64`: truncation toward zero. -/
def goInt32 (q : Rat) : Int := Int.tdiv q.num (q.den : Int)

/-- Go `strings.HasPrefix(k, "_")`.  Go strings are byte slices; the check is
modelled on the string's character list (the prefix `_` is one byte). -/
def hasUnderscorePrefix (k : String) : Bool :=
  match k.data with
  | c :: _ => c = '_'
  | [] => false

/-- Go `k[1:len(k)]` for a key whose first character is the one-byte `_`. -/
def dropUnderscore (k : String) : String :=
  String.mk (k.data.drop 1)

/-- Lines 151-155: the `extra` map built from every top-level key that starts
with an underscore and has a non-null value, keyed by the name with the
leading underscore removed.  The Go map is modelled as an association list;
distinct input keys stay distinct after stripping. -/
def extraOf (mapped : List (String × JValue)) : List (String × JValue) :=
  (mapped.filter (fun p => hasUnderscorePrefix p.1 && !p.2.isNull)).map
    (fun p => (dropUnderscore p.1, p.2))

/-- Lines 84-86 (`version`, and the same shape for `host`, `short_message`):
skip when absent or null, assign on a string, and a non-string value is the
type-assertion panic `val.(string)`, modelled as `none`. -/
def applyVersion (v : Option JValue) (msg : Message) : Option Message :=
  match v with
  | some (.str s) => some { msg with Version := s }
  | some .null => some msg
  | some _ => none
  | none => some msg

/-- Lines 88-90 (`host`). -/
def applyHost (v : Option JValue) (msg : Message) : Option Message :=
  match v with
  | some (.str s) => some { msg with Host := s }
  | some .null => some msg
  | some _ => none
  | none => some msg

/-- Lines 92-94 (`short_message`). -/
def applyShort (v : Option JValue) (msg : Message) : Option Message :=
  match v with
  | some (.str s) => some { msg with Short := s }
  | some .null => some msg
  | some _ => none
  | none => some msg

/-- Lines 96-102 (`full_message`): assert string, then assign only when
non-empty. -/
def applyFull (v : Option JValue) (msg : Message) : Option Message :=
  match v with
  | some (.str s) => if 0 < s.length then some { msg with Full := s } else some msg
  | some .null => some msg
  | some _ => none
  | none => some msg

/-- Lines 104-114 (`timestamp`): a string is run through `strconv.ParseFloat`
(the parameter `pf`) and assigned only on success; a number is assigned
directly; any other representation falls through the type switch silently. -/
def applyTimestamp (pf : String → Option Rat) (v : Option JValue) (msg : Message) :
    Option Message :=
  match v with
  | some (.str s) =>
    match pf s with
    | some q => some { msg with TimeUnix := q }
    | none => some msg
  | some (.num q) => some { msg with TimeUnix := q }
  | some _ => some msg
  | none => some msg

/-- Lines 116-123 (`level`): a JSON number is converted with `int32(...)`;
the `case int32` of the source is unreachable for values decoded from JSON
(which are always `float64`), and any other representation falls through. -/
def applyLevel (v : Option JValue) (msg : Message) : Option Message :=
  match v with
  | some (.num q) => some { msg with Level := goInt32 q }
  | some _ => some msg
  | none => some msg

/-- Lines 125-131 (`facility`): assert string, assign only when non-empty. -/
def applyFacility (v : Option JValue) (msg : Message) : Option Message :=
  match v with
  | some (.str s) => if 0 < s.length then some { msg with Facility := s } else some msg
  | some .null => some msg
  | some _ => none
  | none => some msg

/-- Lines 133-139 (`file`): assert string, assign only when non-empty. -/
def applyFile (v : Option JValue) (msg : Message) : Option Message :=
  match v with
  | some (.str s) => if 0 < s.length then some { msg with File := s } else some msg
  | some .null => some msg
  | some _ => none
  | none => some msg

/-- Lines 141-148 (`line`): same coercion as `level`. -/
def applyLine (v : Option JValue) (msg : Message) : Option Message :=
  match v with
  | some (.num q) => some { msg with Line := goInt32 q }
  | some _ => some msg
  | none => some msg

/-- `ReadMessage` (lines 70-162) after `readToMap` has produced the decoded
JSON object `mapped`: the per-field mapping in source order, then the
underscore keys moved into `Extra` when at least one exists.  A type-assertion
panic anywhere is `none`. -/
def readMessage (pf : String → Option Rat) (mapped : List (String × JValue)) :
    Option Message :=
  (applyVersion (mapped.lookup "version") {}).bind fun m =>
  (applyHost (mapped.lookup "host") m).bind fun m =>
  (applyShort (mapped.lookup "short_message") m).bind fun m =>
  (applyFull (mapped.lookup "full_message") m).bind fun m =>
  (applyTimestamp pf (mapped.lookup "timestamp") m).bind fun m =>
  (applyLevel (mapped.lookup "level") m).bind fun m =>
  (applyFacility (mapped.lookup "facility") m).bind fun m =>
  (applyFile (mapped.lookup "file") m).bind fun m =>
  (applyLine (mapped.lookup "line") m).map fun m =>
    let extra := extraOf mapped
    if extra.isEmpty then m else { m with Extra := extra }

/-- The six string-asserted keys tolerate absence, null, or a string; any
other decoded value makes the corresponding `val.(string)` assertion panic. -/
def strOK : Option JValue → Bool
  | some (.bool _) => false
  | some (.num _) => false
  | some (.arr _) => false
  | some (.obj _) => false
  | _ => true

/-- The resulting value of a directly assigned string field starting from the
zero default (also of the non-empty-guarded ones, since the default is `""`). -/
def strField : Option JValue → String
  | some (.str s) => s
  | _ => ""

/-- The resulting `TimeUnix` value for a given decoded `timestamp` value. -/
def tsField (pf : String → Option Rat) : Option JValue → Rat
  | some (.num q) => q
  | some (.str s) => (pf s).getD 0
  | _ => 0

/-- The resulting value of an integer field for a given decoded value. -/
def intField : Option JValue → Int
  | some (.num q) => goInt32 q
  | _ => 0

/-- Whether none of the six string-asserted lookups panics. -/
def wellTyped (mapped : List (String × JValue)) : Bool :=
  strOK (mapped.lookup "version") && strOK (mapped.lookup "host") &&
  strOK (mapped.lookup "short_message") && strOK (mapped.lookup "full_message") &&
  strOK (mapped.lookup "facility") && strOK (mapped.lookup "file")

def assignStr (v : Option JValue) (old : String) : String :=
  match v with
  | some (.str s) => s
  | _ => old

def assignStrNE (v : Option JValue) (old : String) : String :=
  match v with
  | some (.str s) => if 0 < s.length then s else old
  | _ => old

def assignTs (pf : String → Option Rat) (v : Option JValue) (old : Rat) : Rat :=
  match v with
  | some (.num q) => q
  | some (.str s) => (pf s).getD old
  | _ => old

def assignInt (v : Option JValue) (old : Int) : Int :=
  match v with
  | some (.num q) => goInt32 q
  | _ => old

lemma applyVersion_eq (v : Option JValue) (m : Message) :
    applyVersion v m = if strOK v then some { m with Version := assignStr v m.Version } else none := by
  cases v with
  | none => rfl
  | some jv => cases jv <;> simp [applyVersion, strOK, assignStr]

lemma applyHost_eq (v : Option JValue) (m : Message) :
    applyHost v m = if strOK v then some { m with Host := assignStr v m.Host } else none := by
  cases v with
  | none => rfl
  | some jv => cases jv <;> simp [applyHost, strOK, assignStr]

lemma applyShort_eq (v : Option JValue) (m : Message) :
    applyShort v m = if strOK v then some { m with Short := assignStr v m.Short } else none := by
  cases v with
  | none => rfl
  | some jv => cases jv <;> simp [applyShort, strOK, assignStr]

lemma applyFull_eq (v : Option JValue) (m : Message) :
    applyFull v m = if strOK v then some { m with Full := assignStrNE v m.Full } else none := by
  cases v with
  | none => rfl
  | some jv => cases jv <;> simp [applyFull, strOK, assignStrNE] <;> split <;> rfl

lemma applyFacility_eq (v : Option JValue) (m : Message) :
    applyFacility v m = if strOK v then some { m with Facility := assignStrNE v m.Facility } else none := by
  cases v with
  | none => rfl
  | some jv => cases jv <;> simp [applyFacility, strOK, assignStrNE] <;> split <;> rfl

lemma applyFile_eq (v : Option JValue) (m : Message) :
    applyFile v m = if strOK v then some { m with File := assignStrNE v m.File } else none := by
  cases v with
  | none => rfl
  | some jv => cases jv <;> simp [applyFile, strOK, assignStrNE] <;> split <;> rfl

lemma applyTimestamp_eq (pf : String → Option Rat) (v : Option JValue) (m : Message) :
    applyTimestamp pf v m = some { m with TimeUnix := assignTs pf v m.TimeUnix } := by
  cases v with
  | none => rfl
  | some jv =>
    cases jv <;> simp [applyTimestamp, assignTs]
    case str s => cases pf s <;> simp

lemma applyLevel_eq (v : Option JValue) (m : Message) :
    applyLevel v m = some { m with Level := assignInt v m.Level } := by
  cases v with
  | none => rfl
  | some jv => cases jv <;> simp [applyLevel, assignInt]

lemma applyLine_eq (v : Option JValue) (m : Message) :
    applyLine v m = some { m with Line := assignInt v m.Line } := by
  cases v with
  | none => rfl
  | some jv => cases jv <;> simp [applyLine, assignInt]

lemma str_eq_empty_of_length (s : String) (h : ¬ 0 < s.length) : s = "" := by
  cases s with
  | mk d => cases d with
    | nil => rfl
    | cons a t => simp [String.length] at h

lemma assignStr_empty (v : Option JValue) : assignStr v "" = strField v := by
  cases v with
  | none => rfl
  | some jv => cases jv <;> rfl

lemma assignStrNE_empty (v : Option JValue) : assignStrNE v "" = strField v := by
  cases v with
  | none => rfl
  | some jv =>
    cases jv <;> simp [assignStrNE, strField]
    case str s =>
      intro h
      exact (str_eq_empty_of_length s (by omega)).symm

lemma assignTs_zero (pf : String → Option Rat) (v : Option JValue) :
    assignTs pf v 0 = tsField pf v := by
  cases v with
  | none => rfl
  | some jv => cases jv <;> rfl

lemma assignInt_zero (v : Option JValue) : assignInt v 0 = intField v := by
  cases v with
  | none => rfl
  | some jv => cases jv <;> rfl

/-- Full characterization of `ReadMessage`'s field mapping: it succeeds
exactly when none of the six string assertions panics, and then every field
of the resulting `Message` is determined by the corresponding lookup. -/
theorem readMessage_eq (pf : String → Option Rat) (mapped : List (String × JValue)) :
    readMessage pf mapped =
      if wellTyped mapped then
        some { Version := strField (mapped.lookup "version"),
               Host := strField (mapped.lookup "host"),
               Short := strField (mapped.lookup "short_message"),
               Full := strField (mapped.lookup "full_message"),
               TimeUnix := tsField pf (mapped.lookup "timestamp"),
               Level := intField (mapped.lookup "level"),
               Facility := strField (mapped.lookup "facility"),
               File := strField (mapped.lookup "file"),
               Line := intField (mapped.lookup "line"),
               Extra := extraOf mapped }
      else none := by
  unfold readMessage wellTyped
  simp only [applyVersion_eq, applyHost_eq, applyShort_eq, applyFull_eq, applyTimestamp_eq,
    applyLevel_eq, applyFacility_eq, applyFile_eq, applyLine_eq]
  cases h1 : strOK (mapped.lookup "version") <;> simp [h1]
  cases h2 : strOK (mapped.lookup "host") <;> simp [h2]
  cases h3 : strOK (mapped.lookup "short_message") <;> simp [h3]
  cases h4 : strOK (mapped.lookup "full_message") <;> simp [h4]
  cases h5 : strOK (mapped.lookup "facility") <;> simp [h5]
  cases h6 : strOK (mapped.lookup "file") <;> simp [h6]
  simp only [assignStr_empty, assignStrNE_empty, assignTs_zero, assignInt_zero]
  cases hext : (extraOf mapped).isEmpty
  · simp [hext]
  · simp [hext, List.isEmpty_iff.mp hext]

lemma string_mk_data (s : String) : String.mk s.data = s := by cases s; rfl

lemma underscore_append_data (k : String) : ("_" ++ k).data = '_' :: k.data := by
  cases k with
  | mk d => rfl

lemma hasUnderscorePrefix_append (k : String) : hasUnderscorePrefix ("_" ++ k) = true := by
  unfold hasUnderscorePrefix
  rw [underscore_append_data]
  simp

lemma dropUnderscore_append (k : String) : dropUnderscore ("_" ++ k) = k := by
  unfold dropUnderscore
  rw [underscore_append_data]
  exact string_mk_data k

lemma eq_underscore_append (s : String) (h : hasUnderscorePrefix s = true) :
    s = "_" ++ dropUnderscore s := by
  cases s with
  | mk d =>
    cases d with
    | nil => simp [hasUnderscorePrefix] at h
    | cons c t =>
      have hc : c = '_' := by simpa [hasUnderscorePrefix] using h
      subst hc
      rfl

lemma isNull_eq_false_iff (v : JValue) : v.isNull = false ↔ v ≠ JValue.null := by
  cases v <;> simp [JValue.isNull]

lemma ne_nil_iff_exists_mem (l : List (String × JValue)) : l ≠ [] ↔ ∃ p, p ∈ l := by
  cases l <;> simp

lemma lookup_eq_none_of_not_mem (k : String) (l : List (String × JValue))
    (h : k ∉ l.map Prod.fst) : l.lookup k = none := by
  induction l with
  | nil => rfl
  | cons p t ih =>
    simp only [List.map_cons, List.mem_cons, not_or] at h
    obtain ⟨h1, h2⟩ := h
    obtain ⟨p1, p2⟩ := p
    simp only [List.lookup]
    rw [beq_eq_false_iff_ne.mpr h1]
    exact ih h2

/-- Membership in the `extra` list is exactly: the original object had the
underscore-prefixed key with this (non-null) value. -/
lemma mem_extraOf (mapped : List (String × JValue)) (k : String) (v : JValue) :
    (k, v) ∈ extraOf mapped ↔ ("_" ++ k, v) ∈ mapped ∧ v.isNull = false := by
  unfold extraOf
  simp only [List.mem_map, List.mem_filter]
  constructor
  · rintro ⟨⟨k0, v0⟩, ⟨hmem, hq⟩, heq⟩
    rw [Bool.and_eq_true] at hq
    obtain ⟨hq1, hq2⟩ := hq
    have hk : dropUnderscore k0 = k := congrArg Prod.fst heq
    have hv : v0 = v := congrArg Prod.snd heq
    have hk0 : k0 = "_" ++ k := by rw [eq_underscore_append k0 hq1, hk]
    refine ⟨by rwa [hk0, hv] at hmem, ?_⟩
    rw [← hv]
    simpa using hq2
  · rintro ⟨hmem, hnull⟩
    refine ⟨("_" ++ k, v), ⟨hmem, ?_⟩, ?_⟩
    · simp [hasUnderscorePrefix_append, hnull]
    · simp [dropUnderscore_append]

/-- When `readMessage` succeeds, its `Extra` field is exactly `extraOf mapped`. -/
lemma readMessage_extra (pf : String → Option Rat) (mapped : List (String × JValue))
    (msg : Message) (h : readMessage pf mapped = some msg) : msg.Extra = extraOf mapped := by
  rw [readMessage_eq] at h
  by_cases hw : wellTyped mapped = true
  · rw [if_pos hw] at h
    rw [← Option.some.inj h]
  · rw [if_neg hw] at h
    exact absurd h (by simp)

/-- Claim C3: for every decoded top-level JSON object, `ReadMessage` puts a
key into the `Message`'s extra map if and only if the key starts with an
underscore and its value is non-null, storing the original decoded value
under the key with the leading underscore removed; no other keys appear in
extra, and the extra map is non-empty if and only if at least one such key
existed. -/
theorem c3_extra_iff (pf : String → Option Rat) (mapped : List (String × JValue))
    (msg : Message) (h : readMessage pf mapped = some msg) :
    (∀ (k : String) (v : JValue), (k, v) ∈ msg.Extra ↔ ("_" ++ k, v) ∈ mapped ∧ v ≠ JValue.null)
    ∧ (msg.Extra ≠ [] ↔ ∃ (k : String) (v : JValue), ("_" ++ k, v) ∈ mapped ∧ v ≠ JValue.null) := by
  have hex := readMessage_extra pf mapped msg h
  constructor
  · intro k v
    rw [hex, mem_extraOf, isNull_eq_false_iff]
  · rw [hex, ne_nil_iff_exists_mem]
    constructor
    · rintro ⟨⟨k, v⟩, hp⟩
      rw [mem_extraOf, isNull_eq_false_iff] at hp
      exact ⟨k, v, hp⟩
    · rintro ⟨k, v, hp⟩
      refine ⟨(k, v), ?_⟩
      rw [mem_extraOf, isNull_eq_false_iff]
      exact hp

/-- A trivial stand-in for `strconv.ParseFloat` used by concrete witnesses. -/
def pfNone : String → Option Rat := fun _ => none

def msgC3 : Message := { Extra := [("user", JValue.str "alice")] }

/-- Witness for C3 at the spec's own example: `_user = "alice"` lands in
extra under `user`, while `_empty = null` is dropped. -/
theorem c3_extra_iff_witness : ("user", JValue.str "alice") ∈ msgC3.Extra :=
  ((c3_extra_iff pfNone [("_user", JValue.str "alice"), ("_empty", JValue.null)] msgC3 rfl).1
    "user" (JValue.str "alice")).mpr ⟨List.mem_cons_self _ _, by simp⟩

/-- Claim C6: whenever the decoded JSON object contains the key `facility`
with a string value (including the empty string), the resulting `Message`'s
facility field equals that value.  (For the empty string the source skips the
assignment, but the field keeps its zero default `""`, which equals the
value.) -/
theorem c6_facility_assigned (pf : String → Option Rat) (mapped : List (String × JValue))
    (msg : Message) (s : String) (h : readMessage pf mapped = some msg)
    (hf : mapped.lookup "facility" = some (JValue.str s)) : msg.Facility = s := by
  rw [readMessage_eq] at h
  by_cases hw : wellTyped mapped = true
  · rw [if_pos hw] at h
    rw [← Option.some.inj h]
    simp [hf, strField]
  · rw [if_neg hw] at h
    exact absurd h (by simp)

def msgC6 : Message := { Facility := "kern" }

/-- Witness for C6 at a concrete object containing `facility = "kern"`. -/
theorem c6_facility_assigned_witness : msgC6.Facility = "kern" :=
  c6_facility_assigned pfNone [("facility", JValue.str "kern")] msgC6 "kern" rfl rfl

/-- Claim C7: a `full_message` equal to the empty string produces a `Message`
identical to the one produced when `full_message` is absent entirely. -/
theorem c7_empty_full_message (pf : String → Option Rat) (rest : List (String × JValue))
    (h : "full_message" ∉ rest.map Prod.fst) :
    readMessage pf (("full_message", JValue.str "") :: rest) = readMessage pf rest := by
  rw [readMessage_eq, readMessage_eq]
  have hfm : rest.lookup "full_message" = none := lookup_eq_none_of_not_mem _ _ h
  have hup : hasUnderscorePrefix "full_message" = false := by decide
  have hext : extraOf (("full_message", JValue.str "") :: rest) = extraOf rest := by
    simp [extraOf, hup]
  simp [wellTyped, List.lookup, hfm, hext, strField, strOK]

/-- Witness for C7 at a concrete object. -/
theorem c7_empty_full_message_witness :
    readMessage pfNone [("full_message", JValue.str ""), ("host", JValue.str "h")] =
      readMessage pfNone [("host", JValue.str "h")] :=
  c7_empty_full_message pfNone [("host", JValue.str "h")] (by decide)

/-- Claim C8: for the `timestamp` key, `ReadMessage` assigns `TimeUnix` from a
JSON number directly, or from a JSON string that parses as a float; for any
other representation, or a string that fails to parse, `TimeUnix` stays at its
zero default; and whatever the timestamp value is, no error is raised by its
handling (the call succeeds exactly when it succeeds without the key). -/
theorem c8_timestamp_rules (pf : String → Option Rat) (v : JValue)
    (rest : List (String × JValue)) (msg : Message)
    (h : readMessage pf rest = some msg) :
    readMessage pf (("timestamp", v) :: rest) =
      some { msg with TimeUnix :=
        match v with
        | .num q => q
        | .str s => (pf s).getD 0
        | _ => 0 } := by
  rw [readMessage_eq] at h
  rw [readMessage_eq]
  by_cases hw : wellTyped rest = true
  · rw [if_pos hw] at h
    have hwc : wellTyped (("timestamp", v) :: rest) = true := by
      simpa [wellTyped, List.lookup] using hw
    rw [if_pos hwc, ← Option.some.inj h]
    have hup : hasUnderscorePrefix "timestamp" = false := by decide
    have hext : extraOf (("timestamp", v) :: rest) = extraOf rest := by
      simp [extraOf, hup]
    cases v <;> simp [List.lookup, hext, tsField]
  · rw [if_neg hw] at h
    exact absurd h (by simp)

def pfC8 : String → Option Rat := fun s => if s = "1.5" then some (3 / 2) else none

def msgC8 : Message := { TimeUnix := 3 / 2 }

/-- Witness for C8 at a concrete parsable string timestamp. -/
theorem c8_timestamp_rules_witness :
    readMessage pfC8 [("timestamp", JValue.str "1.5")] = some msgC8 :=
  c8_timestamp_rules pfC8 (JValue.str "1.5") [] {} rfl

/-- Claim C9 (implicit): a top-level key that is exactly `_` with a non-null
value is stored in extra under the empty-string key. -/
theorem c9_bare_underscore_key (pf : String → Option Rat) (mapped : List (String × JValue))
    (msg : Message) (v : JValue) (h : readMessage pf mapped = some msg)
    (hm : ("_", v) ∈ mapped) (hv : v ≠ JValue.null) : ("", v) ∈ msg.Extra := by
  rw [readMessage_extra pf mapped msg h, mem_extraOf]
  refine ⟨?_, (isNull_eq_false_iff v).mpr hv⟩
  have he : ("_" ++ "" : String) = "_" := rfl
  rwa [he]

def msgC9 : Message := { Extra := [("", JValue.num 5)] }

/-- Witness for C9 at a concrete object with the bare key `_`. -/
theorem c9_bare_underscore_key_witness : ("", JValue.num 5) ∈ msgC9.Extra :=
  c9_bare_underscore_key pfNone [("_", JValue.num 5)] msgC9 (JValue.num 5) rfl
    (List.mem_cons_self _ _) (by simp)

/-- Errors a single `readToMap` call can end with.  `badIndex` models a Go
index-out-of-range panic (reading the header of a short chunk datagram at
line 183, or `chunks[seq]` with `seq` outside the allocated chunk array at
line 192); `noData` models a read on an exhausted transport (the real
connection would block forever). -/
inductive ReadErr where
  | noData
  | outOfBand
  | notChunked
  | badIndex
  | zipFail
  | jsonFail
deriving DecidableEq

/-- A Go slice read: the bytes visible through the view `store[off : off+len]`
of the backing array.  Go slice values are (pointer, length) views, so reads
through a stored slice observe the array's current contents. -/
def readSlice (store : List Nat) (off len : Nat) : List Nat :=
  (store.drop off).take len

/-- The loop state of `readToMap` (lines 165-200).  `store` is the backing
array of `cBuf` (allocated once with length `ChunkSize`); `slen` is the
current slice length `len(cBuf)` (the crucial point: line 179's
`cBuf = cBuf[:n]` persists into the next `conn.Read(cBuf)`); `ocid` is the
slice view (offset, length) into `store` saved by `ocid = cid` — a view, not
a copy; `chunks` holds the copied chunk payloads (line 192 copies);
`length` accumulates received payload sizes; `lens` is an observation-only
trace of `len(cBuf)` at each `conn.Read` call. -/
structure LoopSt where
  store : List Nat
  slen : Nat
  cHead : List Nat
  ocid : Option (Nat × Nat)
  total : Nat
  chunks : List (List Nat)
  length : Nat
  lens : List Nat

/-- The state at entry of the loop: `cBuf := make([]byte, ChunkSize)` (zeroed),
`var cid, ocid []byte` nil, `seq, total uint8` zero, `chunks` nil. -/
def initSt : LoopSt :=
  { store := List.replicate ChunkSize 0, slen := ChunkSize, cHead := [],
    ocid := none, total := 0, chunks := [], length := 0, lens := [] }

/-- Lines 190-193: `n = len(cBuf) - chunkedHeaderLen;
chunks[seq] = append(make([]byte, 0, n), cBuf[chunkedHeaderLen:]...);
length += n`.  The assignment `chunks[seq]` panics when `seq` is outside the
array allocated from the first chunk's total. -/
def storeChunk (st : LoopSt) (seq : Nat) (chunks : List (List Nat)) (n : Nat) :
    Except ReadErr (LoopSt × Bool) :=
  if seq < chunks.length then
    .ok ({ st with
           chunks := chunks.set seq (readSlice st.store chunkedHeaderLen (n - chunkedHeaderLen)),
           length := st.length + (n - chunkedHeaderLen) }, true)
  else .error .badIndex

/-- One iteration of the receive loop body (lines 176-199).  `conn.Read(cBuf)`
delivers `min (len datagram) len(cBuf)` bytes of the next datagram into the
front of the backing array (a UDP read truncates the datagram to the buffer
length and discards the rest); then
`cHead, cBuf = cBuf[:2], cBuf[:n]`.  For a chunked datagram the header fields
are read at positions 2-11 (panicking when `len(cBuf) < 12`); the saved
`ocid` view is compared against the current id bytes; the payload is copied
into `chunks[seq]`.  For a non-chunked datagram the loop errors when a
chunked assembly is in progress and otherwise breaks (the `Bool` result is
`false` for break). -/
def recvStep (st : LoopSt) (d : List Nat) : Except ReadErr (LoopSt × Bool) :=
  let n := min d.length st.slen
  let store := d.take n ++ st.store.drop n
  let cHead := store.take 2
  let lens := st.lens ++ [st.slen]
  if cHead = magicChunked then
    if n < chunkedHeaderLen then .error .badIndex
    else
      let seq := store.getD 10 0
      let total := store.getD 11 0
      match st.ocid with
      | some o =>
        if readSlice store 2 8 ≠ readSlice store o.1 o.2 then .error .outOfBand
        else
          storeChunk { st with
                       store := store, slen := n, cHead := cHead, lens := lens,
                       total := total } seq st.chunks n
      | none =>
        storeChunk { st with
                     store := store, slen := n, cHead := cHead, lens := lens,
                     total := total, ocid := some (2, 8) } seq (List.replicate total []) n
  else
    if 0 < st.total then .error .notChunked
    else .ok ({ st with store := store, slen := n, cHead := cHead, lens := lens }, false)

/-- The receive loop (line 175):
`for got := 0; got < 128 && (total == 0 || got < int(total)); got++`,
consuming one datagram per iteration. -/
def chunkLoop : LoopSt → Nat → List (List Nat) → Except ReadErr LoopSt
  | st, got, ds =>
    if got < 128 ∧ (st.total = 0 ∨ got < st.total) then
      match ds with
      | [] => .error .noData
      | d :: rest =>
        match recvStep st d with
        | .error e => .error e
        | .ok (st', true) => chunkLoop st' (got + 1) rest
        | .ok (st', false) => .ok st'
    else .ok st

/-- Lines 203-213 applied to the final loop state: when any chunk payload was
received, the chunk payloads are concatenated in index order into the front
of the same backing array (reallocating only when the result outgrows its
capacity `ChunkSize`); otherwise the buffer is the single datagram
`cBuf[:n]`. -/
def assembleBuf (st : LoopSt) : List Nat :=
  if 0 < st.length then st.chunks.flatten
  else readSlice st.store 0 st.slen

/-- Line 212 (`cHead = cBuf[:2]`) after reassembly, or the loop's last `cHead`
when no chunking occurred.  When the concatenation fits the original array the
2-byte head view can still expose an old byte of the array past the written
prefix, which the view model makes explicit. -/
def assembleHead (st : LoopSt) : List Nat :=
  if 0 < st.length then
    let buf := st.chunks.flatten
    if buf.length ≤ ChunkSize then (buf ++ st.store.drop buf.length).take 2
    else buf.take 2
  else st.cHead

/-- The raw reassembled buffer a single `readToMap` call feeds into
compression detection, for a given arriving datagram sequence. -/
def assembledBuf (ds : List (List Nat)) : Except ReadErr (List Nat) :=
  match chunkLoop initSt 0 ds with
  | .error e => .error e
  | .ok st => .ok (assembleBuf st)

/-- The trace of buffer lengths `len(cBuf)` offered to `conn.Read` on the
successive receive attempts of one `readToMap` call. -/
def recvLens (ds : List (List Nat)) : Except ReadErr (List Nat) :=
  match chunkLoop initSt 0 ds with
  | .error e => .error e
  | .ok st => .ok st.lens

/-- Lines 216-227: compression detection on the first two bytes of the
reassembled buffer, with the gzip and zlib decompressors as parameters. -/
def uncompress (gunzip zunzip : List Nat → Option (List Nat))
    (cHead cBuf : List Nat) : Option (List Nat) :=
  if cHead = magicGzip then gunzip cBuf
  else if cHead.getD 0 0 = magicZlibByte ∧ (cHead.getD 0 0 * 256 + cHead.getD 1 0) % 31 = 0 then
    zunzip cBuf
  else some cBuf

/-- The whole of `readToMap` (lines 164-238): receive loop, reassembly,
compression detection and JSON decoding, with the external decompressors and
the JSON decoder as parameters. -/
def readToMap (gunzip zunzip : List Nat → Option (List Nat))
    (jsonDec : List Nat → Option (List (String × JValue)))
    (ds : List (List Nat)) : Except ReadErr (List (String × JValue)) :=
  match chunkLoop initSt 0 ds with
  | .error e => .error e
  | .ok st =>
    match uncompress gunzip zunzip (assembleHead st) (assembleBuf st) with
    | none => .error .zipFail
    | some payload =>
      match jsonDec payload with
      | none => .error .jsonFail
      | some m => .ok m

/-- `ReadMessage` end to end: `readToMap` followed by the field mapping (the
inner `Option` is `none` on a type-assertion panic). -/
def readMessageFrom (pf : String → Option Rat)
    (gunzip zunzip : List Nat → Option (List Nat))
    (jsonDec : List Nat → Option (List (String × JValue)))
    (ds : List (List Nat)) : Except ReadErr (Option Message) :=
  match readToMap gunzip zunzip jsonDec ds with
  | .error e => .error e
  | .ok m => .ok (readMessage pf m)

/-- An 8-byte message id used by the concrete runs. -/
def idA : List Nat := [1, 1, 1, 1, 1, 1, 1, 1]

/-- A different 8-byte message id. -/
def idB : List Nat := [9, 9, 9, 9, 9, 9, 9, 9]

/-- Claim C1 (evaluation at the failing input): a two-chunk message carrying
the payload `[176, 177, 178]` split `[176]` / `[177, 178]`, delivered in
order with a consistent id and total, reassembles to `[176, 177]` — NOT
byte-identical to the original payload.  Line 179's `cBuf = cBuf[:n]`
persists into the next `conn.Read(cBuf)`, so the 14-byte second datagram is
truncated to the 13 bytes of the first and loses the last payload byte. -/
theorem c1_reassembly_truncates :
    assembledBuf [magicChunked ++ idA ++ [0, 2] ++ [176],
                  magicChunked ++ idA ++ [1, 2] ++ [177, 178]] = .ok [176, 177]
    ∧ ([176, 177] : List Nat) ≠ [176, 177, 178] :=
  ⟨rfl, by decide⟩

/-- Claim C2 (evaluation at the failing input): on the same two-datagram run,
the buffer lengths offered to `conn.Read` are `[ChunkSize, 13]` — the second
receive attempt offers only the 13 bytes returned by the first read, not the
full fixed maximum chunk size. -/
theorem c2_recv_buffer_shrinks :
    recvLens [magicChunked ++ idA ++ [0, 2] ++ [176],
              magicChunked ++ idA ++ [1, 2] ++ [177, 178]] = .ok [ChunkSize, 13]
    ∧ (13 : Nat) ≠ ChunkSize :=
  ⟨rfl, by decide⟩

/-- Claim C4 (evaluation at the failing input): a second chunk whose 8-byte
message id differs from the first is accepted into the same assembly and the
call completes with the mixed buffer `[65, 66]` instead of failing with the
out-of-band error.  `ocid = cid` at line 187 stores a slice view into `cBuf`;
after the next read both `cid` and `ocid` view bytes 2-9 of the same backing
array, so the comparison at line 184 can never fail. -/
theorem c4_out_of_band_unreachable :
    assembledBuf [magicChunked ++ idA ++ [0, 2] ++ [65],
                  magicChunked ++ idB ++ [1, 2] ++ [66]] = .ok [65, 66]
    ∧ (Except.ok [65, 66] : Except ReadErr (List Nat)) ≠ .error .outOfBand :=
  ⟨rfl, by simp⟩

/-- Claim C10 counterexample: two chunk datagrams with declared total 2, both
carrying sequence index 0, the second payload `[8, 9]` longer than the first;
assembly terminates without error but yields `[8]` — the shrunken receive
buffer truncates the last-delivered datagram, so the buffer is NOT the
last-delivered payload for that index. -/
theorem c10_counterexample :
    assembledBuf [magicChunked ++ idA ++ [0, 2] ++ [7],
                  magicChunked ++ idA ++ [0, 2] ++ [8, 9]] = .ok [8]
    ∧ ([8] : List Nat) ≠ [8, 9] :=
  ⟨rfl, by decide⟩

lemma chunk_datagram_length (id p : List Nat) (s t : Nat) (hid : id.length = 8) :
    (magicChunked ++ id ++ [s, t] ++ p).length = 12 + p.length := by
  simp [magicChunked, hid]
  omega

lemma recvStep_chunk_some (st : LoopSt) (id p : List Nat) (s t : Nat)
    (hid : id.length = 8)
    (ho : st.ocid = some (2, 8))
    (hfit : 12 + p.length ≤ st.slen)
    (hseq : s < st.chunks.length) :
    recvStep st (magicChunked ++ id ++ [s, t] ++ p) =
      .ok ({ st with
             store := (magicChunked ++ id ++ [s, t] ++ p) ++ st.store.drop (12 + p.length),
             slen := 12 + p.length,
             cHead := magicChunked,
             lens := st.lens ++ [st.slen],
             total := t,
             chunks := st.chunks.set s p,
             length := st.length + p.length }, true) := by
  have hd : (magicChunked ++ id ++ [s, t] ++ p).length = 12 + p.length :=
    chunk_datagram_length id p s t hid
  have hn : min (magicChunked ++ id ++ [s, t] ++ p).length st.slen
      = (magicChunked ++ id ++ [s, t] ++ p).length := min_eq_left (by omega)
  have hhead : ∀ X : List Nat, ((magicChunked ++ id ++ [s, t] ++ p) ++ X).take 2 = magicChunked := by
    intro X
    simp [magicChunked]
  have hgd10 : ∀ X : List Nat, ((magicChunked ++ id ++ [s, t] ++ p) ++ X).getD 10 0 = s := by
    intro X
    rw [show (magicChunked ++ id ++ [s, t] ++ p) ++ X
        = (magicChunked ++ id) ++ ([s, t] ++ (p ++ X)) by simp [List.append_assoc]]
    rw [List.getD_append_right _ _ _ _ (by simp [magicChunked, hid])]
    simp [magicChunked, hid]
  have hgd11 : ∀ X : List Nat, ((magicChunked ++ id ++ [s, t] ++ p) ++ X).getD 11 0 = t := by
    intro X
    rw [show (magicChunked ++ id ++ [s, t] ++ p) ++ X
        = (magicChunked ++ id) ++ ([s, t] ++ (p ++ X)) by simp [List.append_assoc]]
    rw [List.getD_append_right _ _ _ _ (by simp [magicChunked, hid])]
    simp [magicChunked, hid]
  have hps : ∀ X : List Nat, readSlice ((magicChunked ++ id ++ [s, t] ++ p) ++ X)
      chunkedHeaderLen p.length = p := by
    intro X
    rw [show (magicChunked ++ id ++ [s, t] ++ p) ++ X
        = (magicChunked ++ id ++ [s, t]) ++ (p ++ X) by simp [List.append_assoc]]
    unfold readSlice chunkedHeaderLen
    rw [show (12 : Nat) = (magicChunked ++ id ++ [s, t]).length by simp [magicChunked, hid]]
    rw [List.drop_left]
    exact List.take_left p X
  have htake : (magicChunked ++ id ++ [s, t] ++ p).take (12 + p.length)
      = magicChunked ++ id ++ [s, t] ++ p := by
    rw [← hd, List.take_length]
  have hn2 : min (12 + p.length) st.slen = 12 + p.length := min_eq_left hfit
  have h12 : 12 + p.length - chunkedHeaderLen = p.length := by
    unfold chunkedHeaderLen
    omega
  have hnotlt : ¬ (12 + p.length < chunkedHeaderLen) := by
    unfold chunkedHeaderLen
    omega
  simp only [recvStep, hd, hn2, htake, hhead, ho]
  rw [if_pos trivial, if_neg hnotlt]
  simp only [hgd10, hgd11]
  rw [if_neg (by simp)]
  simp only [storeChunk, h12, hps]
  rw [if_pos hseq]

lemma recvStep_chunk_none (st : LoopSt) (id p : List Nat) (s t : Nat)
    (hid : id.length = 8)
    (ho : st.ocid = none)
    (hfit : 12 + p.length ≤ st.slen)
    (hseq : s < t) :
    recvStep st (magicChunked ++ id ++ [s, t] ++ p) =
      .ok ({ st with
             store := (magicChunked ++ id ++ [s, t] ++ p) ++ st.store.drop (12 + p.length),
             slen := 12 + p.length,
             cHead := magicChunked,
             lens := st.lens ++ [st.slen],
             total := t,
             ocid := some (2, 8),
             chunks := (List.replicate t ([] : List Nat)).set s p,
             length := st.length + p.length }, true) := by
  have hd : (magicChunked ++ id ++ [s, t] ++ p).length = 12 + p.length :=
    chunk_datagram_length id p s t hid
  have hhead : ∀ X : List Nat, ((magicChunked ++ id ++ [s, t] ++ p) ++ X).take 2 = magicChunked := by
    intro X
    simp [magicChunked]
  have hgd10 : ∀ X : List Nat, ((magicChunked ++ id ++ [s, t] ++ p) ++ X).getD 10 0 = s := by
    intro X
    rw [show (magicChunked ++ id ++ [s, t] ++ p) ++ X
        = (magicChunked ++ id) ++ ([s, t] ++ (p ++ X)) by simp [List.append_assoc]]
    rw [List.getD_append_right _ _ _ _ (by simp [magicChunked, hid])]
    simp [magicChunked, hid]
  have hgd11 : ∀ X : List Nat, ((magicChunked ++ id ++ [s, t] ++ p) ++ X).getD 11 0 = t := by
    intro X
    rw [show (magicChunked ++ id ++ [s, t] ++ p) ++ X
        = (magicChunked ++ id) ++ ([s, t] ++ (p ++ X)) by simp [List.append_assoc]]
    rw [List.getD_append_right _ _ _ _ (by simp [magicChunked, hid])]
    simp [magicChunked, hid]
  have hps : ∀ X : List Nat, readSlice ((magicChunked ++ id ++ [s, t] ++ p) ++ X)
      chunkedHeaderLen p.length = p := by
    intro X
    rw [show (magicChunked ++ id ++ [s, t] ++ p) ++ X
        = (magicChunked ++ id ++ [s, t]) ++ (p ++ X) by simp [List.append_assoc]]
    unfold readSlice chunkedHeaderLen
    rw [show (12 : Nat) = (magicChunked ++ id ++ [s, t]).length by simp [magicChunked, hid]]
    rw [List.drop_left]
    exact List.take_left p X
  have htake : (magicChunked ++ id ++ [s, t] ++ p).take (12 + p.length)
      = magicChunked ++ id ++ [s, t] ++ p := by
    rw [← hd, List.take_length]
  have hn2 : min (12 + p.length) st.slen = 12 + p.length := min_eq_left hfit
  have h12 : 12 + p.length - chunkedHeaderLen = p.length := by
    unfold chunkedHeaderLen
    omega
  have hnotlt : ¬ (12 + p.length < chunkedHeaderLen) := by
    unfold chunkedHeaderLen
    omega
  simp only [recvStep, hd, hn2, htake, hhead, ho]
  rw [if_pos trivial, if_neg hnotlt]
  simp only [hgd10, hgd11]
  simp only [storeChunk, h12, hps]
  rw [if_pos (by simpa using hseq)]

/-- Datagram lengths compatible with the shrinking receive buffer: each
datagram is no longer than the previous read's byte count, starting from a
given capacity. -/
def fitsWithin : Nat → List Nat → Bool
  | _, [] => true
  | c, n :: rest => decide (n ≤ c) && fitsWithin n rest

lemma getLastD_cons_default (x : List Nat) (xs : List (List Nat)) (a b : List Nat) :
    (x :: xs).getLastD a = (x :: xs).getLastD b := rfl

lemma drop_chunk_header (id p : List Nat) (s t : Nat) (hid : id.length = 8) :
    (magicChunked ++ id ++ [s, t] ++ p).drop chunkedHeaderLen = p := by
  rw [show magicChunked ++ id ++ [s, t] ++ p
      = (magicChunked ++ id ++ [s, t]) ++ p by simp [List.append_assoc]]
  unfold chunkedHeaderLen
  rw [show (12 : Nat) = (magicChunked ++ id ++ [s, t]).length by simp [magicChunked, hid]]
  rw [List.drop_left]

lemma chunkLoop_same_seq (t s : Nat) (ht1 : 1 ≤ t) (ht128 : t ≤ 128) (hst : s < t) :
    ∀ (ds : List (List Nat)) (got : Nat) (st : LoopSt),
      got + ds.length = t →
      st.total = t → st.ocid = some (2, 8) → st.chunks.length = t →
      (∀ d ∈ ds, ∃ id p, id.length = 8 ∧ 1 ≤ p.length ∧ d = magicChunked ++ id ++ [s, t] ++ p) →
      fitsWithin st.slen (ds.map List.length) = true →
      ∃ st', chunkLoop st got ds = .ok st'
        ∧ st'.chunks = (if ds = [] then st.chunks
                        else st.chunks.set s ((ds.getLastD []).drop chunkedHeaderLen))
        ∧ st.length + ds.length ≤ st'.length := by
  intro ds
  induction ds with
  | nil =>
    intro got st hgot htot ho hchl hform hfits
    simp only [List.length_nil] at hgot
    refine ⟨st, ?_, by simp, by simp⟩
    unfold chunkLoop
    rw [if_neg (by rw [htot]; omega)]
  | cons d rest ih =>
    intro got st hgot htot ho hchl hform hfits
    obtain ⟨id, p, hid, hp, hd⟩ := hform d (List.mem_cons_self _ _)
    rw [List.map_cons] at hfits
    unfold fitsWithin at hfits
    rw [Bool.and_eq_true] at hfits
    obtain ⟨hle, hfits'⟩ := hfits
    have hle' : d.length ≤ st.slen := of_decide_eq_true hle
    have hdlen : d.length = 12 + p.length := by
      rw [hd]
      exact chunk_datagram_length id p s t hid
    have hfit : 12 + p.length ≤ st.slen := by omega
    have hcl : s < st.chunks.length := by
      rw [hchl]
      exact hst
    have hstep : recvStep st d =
        .ok ({ st with
               store := (magicChunked ++ id ++ [s, t] ++ p) ++ st.store.drop (12 + p.length),
               slen := 12 + p.length,
               cHead := magicChunked,
               lens := st.lens ++ [st.slen],
               total := t,
               chunks := st.chunks.set s p,
               length := st.length + p.length }, true) := by
      rw [hd]
      exact recvStep_chunk_some st id p s t hid ho hfit hcl
    simp only [List.length_cons] at hgot
    obtain ⟨st', hrun, hchunks, hcount⟩ := ih (got + 1)
      ({ st with
         store := (magicChunked ++ id ++ [s, t] ++ p) ++ st.store.drop (12 + p.length),
         slen := 12 + p.length,
         cHead := magicChunked,
         lens := st.lens ++ [st.slen],
         total := t,
         chunks := st.chunks.set s p,
         length := st.length + p.length })
      (by omega)
      rfl ho (by simpa using hchl)
      (fun d' hd' => hform d' (List.mem_cons_of_mem _ hd'))
      (by simpa [← hdlen] using hfits')
    refine ⟨st', ?_, ?_, ?_⟩
    · unfold chunkLoop
      rw [if_pos ⟨by omega, Or.inr (by rw [htot]; omega)⟩]
      simp only [hstep]
      exact hrun
    · cases rest with
      | nil =>
        rw [hchunks]
        rw [if_pos rfl, if_neg (List.cons_ne_nil d [])]
        show st.chunks.set s p
            = st.chunks.set s (((d :: ([] : List (List Nat))).getLastD []).drop chunkedHeaderLen)
        rw [show (d :: ([] : List (List Nat))).getLastD [] = d from rfl]
        rw [hd, drop_chunk_header id p s t hid]
      | cons r rs =>
        rw [hchunks]
        rw [if_neg (List.cons_ne_nil r rs), if_neg (List.cons_ne_nil d (r :: rs))]
        show (st.chunks.set s p).set s (((r :: rs).getLastD []).drop chunkedHeaderLen)
            = st.chunks.set s (((d :: r :: rs).getLastD []).drop chunkedHeaderLen)
        rw [List.set_set]
        rfl
    · have hc2 : st.length + p.length + rest.length ≤ st'.length := by
        simpa using hcount
      simp only [List.length_cons]
      omega

lemma flatten_replicate_nil (n : Nat) :
    (List.replicate n ([] : List Nat)).flatten = [] := by
  induction n with
  | zero => rfl
  | succ k ih => simp [List.replicate_succ, ih]

lemma flatten_replicate_set (t s : Nat) (p : List Nat) (h : s < t) :
    ((List.replicate t ([] : List Nat)).set s p).flatten = p := by
  induction t generalizing s with
  | zero => omega
  | succ n ih =>
    cases s with
    | zero => simp [List.replicate_succ, flatten_replicate_nil]
    | succ m => simp [List.replicate_succ, ih m (by omega)]

/-- Claim C10 as amended: the reassembly loop counts received chunk datagrams
(arrivals), not distinct sequence indices, against the declared total; for a
declared total `t` (at most the 128-receive cap), delivering `t` well-formed
chunk datagrams that all carry the same valid sequence index — each with a
non-empty payload and none longer than any earlier datagram, so that the
shrinking receive buffer truncates nothing — terminates assembly without
error, and the resulting buffer is exactly the last-delivered payload for
that index, with never-written indices contributing nothing. -/
theorem c10_amended (t s : Nat) (ds : List (List Nat))
    (hlen : ds.length = t) (ht1 : 1 ≤ t) (ht128 : t ≤ 128) (hst : s < t)
    (hform : ∀ d ∈ ds, ∃ id p, id.length = 8 ∧ 1 ≤ p.length ∧ d = magicChunked ++ id ++ [s, t] ++ p)
    (hmono : fitsWithin ChunkSize (ds.map List.length) = true) :
    assembledBuf ds = .ok ((ds.getLastD []).drop chunkedHeaderLen) := by
  cases ds with
  | nil =>
    simp only [List.length_nil] at hlen
    omega
  | cons d rest =>
    obtain ⟨id, p, hid, hp, hd⟩ := hform d (List.mem_cons_self _ _)
    rw [List.map_cons] at hmono
    unfold fitsWithin at hmono
    rw [Bool.and_eq_true] at hmono
    obtain ⟨hle, hfits'⟩ := hmono
    have hle' : d.length ≤ ChunkSize := of_decide_eq_true hle
    have hdlen : d.length = 12 + p.length := by
      rw [hd]
      exact chunk_datagram_length id p s t hid
    have hfit : 12 + p.length ≤ initSt.slen := by
      show 12 + p.length ≤ ChunkSize
      omega
    have hstep : recvStep initSt d =
        .ok ({ initSt with
               store := (magicChunked ++ id ++ [s, t] ++ p) ++ initSt.store.drop (12 + p.length),
               slen := 12 + p.length,
               cHead := magicChunked,
               lens := initSt.lens ++ [initSt.slen],
               total := t,
               ocid := some (2, 8),
               chunks := (List.replicate t ([] : List Nat)).set s p,
               length := initSt.length + p.length }, true) := by
      rw [hd]
      exact recvStep_chunk_none initSt id p s t hid rfl hfit hst
    simp only [List.length_cons] at hlen
    obtain ⟨st', hrun, hchunks, hcount⟩ := chunkLoop_same_seq t s ht1 ht128 hst rest 1
      ({ initSt with
         store := (magicChunked ++ id ++ [s, t] ++ p) ++ initSt.store.drop (12 + p.length),
         slen := 12 + p.length,
         cHead := magicChunked,
         lens := initSt.lens ++ [initSt.slen],
         total := t,
         ocid := some (2, 8),
         chunks := (List.replicate t ([] : List Nat)).set s p,
         length := initSt.length + p.length })
      (by omega)
      rfl rfl (by simp)
      (fun d' hd' => hform d' (List.mem_cons_of_mem _ hd'))
      (by simpa [← hdlen] using hfits')
    have hloop : chunkLoop initSt 0 (d :: rest) = .ok st' := by
      unfold chunkLoop
      rw [if_pos ⟨by omega, Or.inl rfl⟩]
      simp only [hstep]
      exact hrun
    have hpos : 0 < st'.length := by
      have hc2 : initSt.length + p.length + rest.length ≤ st'.length := by
        simpa using hcount
      omega
    simp only [assembledBuf, hloop, assembleBuf]
    rw [if_pos hpos]
    refine congrArg Except.ok ?_
    cases rest with
    | nil =>
      rw [hchunks, if_pos rfl]
      show ((List.replicate t ([] : List Nat)).set s p).flatten
          = ((d :: ([] : List (List Nat))).getLastD []).drop chunkedHeaderLen
      rw [flatten_replicate_set t s p hst]
      rw [show (d :: ([] : List (List Nat))).getLastD [] = d from rfl]
      rw [hd, drop_chunk_header id p s t hid]
    | cons r rs =>
      rw [hchunks, if_neg (List.cons_ne_nil r rs)]
      show (((List.replicate t ([] : List Nat)).set s p).set s
          (((r :: rs).getLastD []).drop chunkedHeaderLen)).flatten
          = ((d :: r :: rs).getLastD []).drop chunkedHeaderLen
      rw [List.set_set, flatten_replicate_set t s _ hst]
      rfl

/-- Witness for the amended C10: two same-index chunk datagrams with declared
total 2 and non-increasing lengths; the buffer is the last-delivered payload
`[8]`, never-written index 1 contributing nothing. -/
theorem c10_amended_witness :
    assembledBuf [magicChunked ++ idA ++ [0, 2] ++ [7],
                  magicChunked ++ idA ++ [0, 2] ++ [8]] = .ok [8] :=
  c10_amended 2 0
    [magicChunked ++ idA ++ [0, 2] ++ [7], magicChunked ++ idA ++ [0, 2] ++ [8]]
    rfl (by decide) (by decide) (by decide)
    (by
      intro d hd
      simp only [List.mem_cons, List.not_mem_nil, or_false] at hd
      rcases hd with h | h
      · exact ⟨idA, [7], rfl, by decide, h⟩
      · exact ⟨idA, [8], rfl, by decide, h⟩)
    (by decide)

lemma chunkLoop_single (d : List Nat) (h2 : 2 ≤ d.length) (hc : d.length ≤ ChunkSize)
    (hm : d.take 2 ≠ magicChunked) :
    chunkLoop initSt 0 [d]
      = .ok { store := d ++ initSt.store.drop d.length, slen := d.length,
              cHead := d.take 2, ocid := none, total := 0,
              chunks := [], length := 0, lens := [ChunkSize] } := by
  have hn : min d.length initSt.slen = d.length := min_eq_left hc
  have htk : List.take d.length d = d := List.take_length d
  have hhead : (d ++ initSt.store.drop d.length).take 2 = d.take 2 := by
    rw [List.take_append_eq_append_take, show (2 : Nat) - d.length = 0 from by omega]
    simp
  unfold chunkLoop
  rw [if_pos ⟨by omega, Or.inl rfl⟩]
  simp only [recvStep, hn, htk, hhead]
  rw [if_neg hm]
  rw [if_neg (by simp [initSt])]
  rfl

lemma getD_of_take_two (l : List Nat) (a b : Nat) (h : l.take 2 = [a, b]) :
    l.getD 0 0 = a := by
  cases l with
  | nil => simp at h
  | cons x xs =>
    cases xs with
    | nil => simp at h
    | cons y ys =>
      simp [List.take] at h
      obtain ⟨h1, h2, h3⟩ := h
      simp [h1]

lemma getD_take_two (l : List Nat) :
    (l.take 2).getD 0 0 = l.getD 0 0 ∧ (l.take 2).getD 1 0 = l.getD 1 0 := by
  cases l with
  | nil => simp
  | cons x xs =>
    cases xs with
    | nil => simp [List.take]
    | cons y ys => simp [List.take]

lemma readSlice_front (d Z : List Nat) : readSlice (d ++ Z) 0 d.length = d := by
  unfold readSlice
  rw [List.drop_zero]
  exact List.take_left d Z

/-- The pipeline on a single unchunked datagram: compression detection on the
first two bytes, then JSON decoding of the (de)compressed payload. -/
lemma readToMap_single (gunzip zunzip : List Nat → Option (List Nat))
    (jsonDec : List Nat → Option (List (String × JValue)))
    (d : List Nat) (h2 : 2 ≤ d.length) (hc : d.length ≤ ChunkSize)
    (hm : d.take 2 ≠ magicChunked) :
    readToMap gunzip zunzip jsonDec [d] =
      match uncompress gunzip zunzip (d.take 2) d with
      | none => .error .zipFail
      | some payload =>
        match jsonDec payload with
        | none => .error .jsonFail
        | some m => .ok m := by
  simp only [readToMap, chunkLoop_single d h2 hc hm]
  have hbuf : assembleBuf
      { store := d ++ initSt.store.drop d.length, slen := d.length,
        cHead := d.take 2, ocid := none, total := 0,
        chunks := [], length := 0, lens := [ChunkSize] } = d := by
    unfold assembleBuf
    rw [if_neg (by simp)]
    exact readSlice_front d _
  have hhd : assembleHead
      { store := d ++ initSt.store.drop d.length, slen := d.length,
        cHead := d.take 2, ocid := none, total := 0,
        chunks := [], length := 0, lens := [ChunkSize] } = d.take 2 := by
    unfold assembleHead
    rw [if_neg (by simp)]
  rw [hbuf, hhd]

/-- Claim C5: compression is detected solely from the first two bytes of the
reassembled buffer (gzip magic, the zlib method byte with the big-endian
16-bit header a multiple of 31, else uncompressed — the definition
`uncompress` consumes only those two bytes), and consequently the same JSON
payload presented gzip-compressed, zlib-compressed, or uncompressed decodes
to the identical Message.  The decompressors are abstract collaborators; the
hypotheses state the standard header shapes of real gzip/zlib output and
their round trips on this payload. -/
theorem c5_compression_transparent (pf : String → Option Rat)
    (gunzip zunzip : List Nat → Option (List Nat))
    (jsonDec : List Nat → Option (List (String × JValue)))
    (p g z : List Nat)
    (hp2 : 2 ≤ p.length) (hpc : p.length ≤ ChunkSize)
    (hpm : p.take 2 ≠ magicChunked) (hpg : p.take 2 ≠ magicGzip)
    (hpz : ¬(p.getD 0 0 = magicZlibByte ∧ (p.getD 0 0 * 256 + p.getD 1 0) % 31 = 0))
    (hg2 : 2 ≤ g.length) (hgc : g.length ≤ ChunkSize)
    (hggz : g.take 2 = magicGzip) (hgun : gunzip g = some p)
    (hz2 : 2 ≤ z.length) (hzc : z.length ≤ ChunkSize)
    (hzb : z.getD 0 0 = magicZlibByte)
    (hz31 : (z.getD 0 0 * 256 + z.getD 1 0) % 31 = 0)
    (hzun : zunzip z = some p) :
    readToMap gunzip zunzip jsonDec [g] = readToMap gunzip zunzip jsonDec [p]
    ∧ readToMap gunzip zunzip jsonDec [z] = readToMap gunzip zunzip jsonDec [p]
    ∧ readMessageFrom pf gunzip zunzip jsonDec [g] = readMessageFrom pf gunzip zunzip jsonDec [p]
    ∧ readMessageFrom pf gunzip zunzip jsonDec [z] = readMessageFrom pf gunzip zunzip jsonDec [p] := by
  have hgm : g.take 2 ≠ magicChunked := by
    rw [hggz]
    decide
  have hzm : z.take 2 ≠ magicChunked := by
    intro hcontra
    have h0 := getD_of_take_two z 0x1e 0x0f hcontra
    rw [hzb] at h0
    exact absurd h0 (by decide)
  have hzg : z.take 2 ≠ magicGzip := by
    intro hcontra
    have h0 := getD_of_take_two z 0x1f 0x8b hcontra
    rw [hzb] at h0
    exact absurd h0 (by decide)
  have hpz' : ¬((p.take 2).getD 0 0 = magicZlibByte
      ∧ ((p.take 2).getD 0 0 * 256 + (p.take 2).getD 1 0) % 31 = 0) := by
    rw [(getD_take_two p).1, (getD_take_two p).2]
    exact hpz
  have hzb' : (z.take 2).getD 0 0 = magicZlibByte := by
    rw [(getD_take_two z).1]
    exact hzb
  have hz31' : ((z.take 2).getD 0 0 * 256 + (z.take 2).getD 1 0) % 31 = 0 := by
    rw [(getD_take_two z).1, (getD_take_two z).2]
    exact hz31
  have hup : uncompress gunzip zunzip (p.take 2) p = some p := by
    unfold uncompress
    rw [if_neg hpg, if_neg hpz']
  have hug : uncompress gunzip zunzip (g.take 2) g = some p := by
    unfold uncompress
    rw [if_pos hggz, hgun]
  have huz : uncompress gunzip zunzip (z.take 2) z = some p := by
    unfold uncompress
    rw [if_neg hzg, if_pos ⟨hzb', hz31'⟩, hzun]
  have hrp : readToMap gunzip zunzip jsonDec [p] =
      (match jsonDec p with
       | none => .error .jsonFail
       | some m => .ok m) := by
    rw [readToMap_single gunzip zunzip jsonDec p hp2 hpc hpm, hup]
  have hrg : readToMap gunzip zunzip jsonDec [g] =
      (match jsonDec p with
       | none => .error .jsonFail
       | some m => .ok m) := by
    rw [readToMap_single gunzip zunzip jsonDec g hg2 hgc hgm, hug]
  have hrz : readToMap gunzip zunzip jsonDec [z] =
      (match jsonDec p with
       | none => .error .jsonFail
       | some m => .ok m) := by
    rw [readToMap_single gunzip zunzip jsonDec z hz2 hzc hzm, huz]
  refine ⟨by rw [hrg, hrp], by rw [hrz, hrp], ?_, ?_⟩
  · unfold readMessageFrom
    rw [hrg, hrp]
  · unfold readMessageFrom
    rw [hrz, hrp]

def pJson : List Nat := [123, 125]

def gzToy : List Nat := [0x1f, 0x8b, 1]

def zlToy : List Nat := [0x78, 1]

def gunzipToy : List Nat → Option (List Nat) := fun b => if b = gzToy then some pJson else none

def zunzipToy : List Nat → Option (List Nat) := fun b => if b = zlToy then some pJson else none

def jsonDecToy : List Nat → Option (List (String × JValue)) :=
  fun b => if b = pJson then some [] else none

/-- Witness for C5 with concrete toy decompressors satisfying the header and
round-trip hypotheses on the payload `[123, 125]`. -/
theorem c5_compression_transparent_witness :
    readMessageFrom pfNone gunzipToy zunzipToy jsonDecToy [gzToy]
      = readMessageFrom pfNone gunzipToy zunzipToy jsonDecToy [pJson]
    ∧ readMessageFrom pfNone gunzipToy zunzipToy jsonDecToy [zlToy]
      = readMessageFrom pfNone gunzipToy zunzipToy jsonDecToy [pJson] :=
  ⟨(c5_compression_transparent pfNone gunzipToy zunzipToy jsonDecToy pJson gzToy zlToy
      (by decide) (by decide) (by decide) (by decide) (by decide)
      (by decide) (by decide) (by decide) rfl
      (by decide) (by decide) (by decide) (by decide) rfl).2.2.1,
   (c5_compression_transparent pfNone gunzipToy zunzipToy jsonDecToy pJson gzToy zlToy
      (by decide) (by decide) (by decide) (by decide) (by decide)
      (by decide) (by decide) (by decide) rfl
      (by decide) (by decide) (by decide) (by decide) rfl).2.2.2⟩
